import Mathlib

/-!
Verification of `src/Simple GAN/matlab/generator_weights_q4_12.h`: a header of
Q4.12 fixed-point weight and bias constants for a two-layer generator network,
together with the fixed-point feed-forward evaluator that the specification
describes for this data.  The header contains only constant tables, so the
evaluator operations (`saturate`, `multiplyAccumulate`, `applyLayer`,
`evaluate`, the encode/decode convention) are modelled from the specification;
the numeric constants and format macros are taken verbatim from the header.
-/

/-- `#define FRAC_BITS 12` from the header. -/
def FRAC_BITS : Nat := 12

/-- `#define INT_BITS 3` from the header. -/
def INT_BITS : Nat := 3

/-- `#define SCALE_FACTOR (1 << FRAC_BITS)` from the header; `1 <<< 12 = 2^12 = 4096`. -/
def SCALE_FACTOR : Int := 2 ^ FRAC_BITS

/-- Value of a 16-bit two's-complement literal as written in the header
(e.g. `0xFC83`) as a signed integer, matching C's `int16_t`. -/
def i16 (n : Nat) : Int := if n < 0x8000 then (n : Int) else (n : Int) - 0x10000

/-- Largest `int16_t` value, `0x7FFF`. -/
def INT16_MAX : Int := 32767

/-- Smallest `int16_t` value, `0x8000` read as signed. -/
def INT16_MIN : Int := -32768

/-- Layer 1 weight `Wg2[3][2]`; hex literals verbatim from the header. -/
def Wg2 : List (List Int) :=
  [[i16 0x0075, i16 0x010B],
   [i16 0x02B3, i16 0x0071],
   [i16 0xFC83, i16 0xFDF6]]

/-- Layer 1 bias `bg2[3]`; hex literals verbatim from the header. -/
def bg2 : List Int := [i16 0x070F, i16 0x0328, i16 0xFE3D]

/-- Layer 2 weight `Wg3[9][3]`; hex literals verbatim from the header. -/
def Wg3 : List (List Int) :=
  [[i16 0xFF46, i16 0xFFA8, i16 0x00CD],
   [i16 0x02C0, i16 0x00C8, i16 0x0119],
   [i16 0x058A, i16 0x024C, i16 0x0135],
   [i16 0x064F, i16 0x030A, i16 0xFF1E],
   [i16 0xFDBB, i16 0x0238, i16 0x0081],
   [i16 0x06C0, i16 0x01DE, i16 0xFE58],
   [i16 0x013A, i16 0xFE19, i16 0x0168],
   [i16 0x021E, i16 0x0214, i16 0xFDB0],
   [i16 0x0113, i16 0x0294, i16 0xFE4D]]

/-- Layer 2 bias `bg3[9]`; hex literals verbatim from the header. -/
def bg3 : List Int :=
  [i16 0xFE21, i16 0x091E, i16 0x0056, i16 0x08EF, i16 0xFF06, i16 0x0966,
   i16 0xFFA3, i16 0x0B26, i16 0xFFF4]

/-- Modelled from the spec: the header ships no code, so `saturate(value:
int32) -> FixedPoint16` is taken from the specification: clamp a widened
intermediate result into the representable signed 16-bit range (saturating,
not wrapping). -/
def saturate (v : Int) : Int :=
  if v > INT16_MAX then INT16_MAX else if v < INT16_MIN then INT16_MIN else v

/-- Arithmetic right shift of a signed value by `n` bits, i.e. floor division
by `2 ^ n`; for this positive divisor, Euclidean division on `Int` is floor
division. -/
def asr (x : Int) (n : Nat) : Int := x / 2 ^ n

/-- Modelled from the spec: the accumulation loop of `multiplyAccumulate`,
adding up products of weight and input in the widened domain. -/
def macLoop : List Int → List Int → Int → Int
  | w :: ws, x :: xs, acc => macLoop ws xs (acc + w * x)
  | _, _, acc => acc

/-- Modelled from the spec: `multiplyAccumulate(weightRow, inputVector, bias)
-> FixedPoint16`: `sum = bias + Σ weight[k] * input[k]`, carried in the
widened (32-bit) domain with the bias at the product scale, right-shifted by
`FRAC_BITS` once at the end and saturated to 16 bits before storage. -/
def multiplyAccumulate (weightRow inputVector : List Int) (bias : Int) : Int :=
  saturate (asr (macLoop weightRow inputVector (bias * SCALE_FACTOR)) FRAC_BITS)

/-- Modelled from the spec: a `Layer` pairs one weight matrix (row-major) with
one bias vector, one bias per output unit. -/
structure Layer where
  weights : List (List Int)
  bias : List Int
deriving DecidableEq

/-- Modelled from the spec: the `ShapeMismatch` error kind; shape mismatches
are reported, never silently padded or truncated. -/
inductive EvalError where
  | ShapeMismatch
deriving DecidableEq

/-- Decidable equality of evaluation results, so that concrete runs of the
evaluator can be checked by `decide`. -/
instance : DecidableEq (Except EvalError (List Int)) := fun a b =>
  match a, b with
  | .ok x, .ok y => decidable_of_iff (x = y) (by simp)
  | .error e, .error f => decidable_of_iff (e = f) (by simp)
  | .ok _, .error _ => isFalse (by simp)
  | .error _, .ok _ => isFalse (by simp)

/-- Per-call shape check of a layer against an input vector: as many bias
entries as weight rows, and every weight row as long as the input. -/
def shapeOk (L : Layer) (x : List Int) : Bool :=
  L.weights.length == L.bias.length &&
    L.weights.all fun row => row.length == x.length

/-- Pre-activation outputs of a layer: one `multiplyAccumulate` per output
unit. -/
def preActivation (L : Layer) (x : List Int) : List Int :=
  List.zipWith (fun row b => multiplyAccumulate row x b) L.weights L.bias

/-- Modelled from the spec: `applyLayer(Layer, inputVector)` with an injected
activation function; fails with `ShapeMismatch` when dimensions disagree. -/
def applyLayer (L : Layer) (act : Int → Int) (x : List Int) :
    Except EvalError (List Int) :=
  if shapeOk L x then .ok ((preActivation L x).map act)
  else .error .ShapeMismatch

/-- Modelled from the spec: `evaluate(Network, inputVector)` applies the
layers in sequence, feeding each layer's output to the next. -/
def evaluate : List Layer → (Int → Int) → List Int → Except EvalError (List Int)
  | [], _, x => .ok x
  | L :: rest, act, x => (applyLayer L act x).bind (evaluate rest act)

/-- The two-layer generator network assembled from the header's constants. -/
def genNetwork : List Layer := [⟨Wg2, bg2⟩, ⟨Wg3, bg3⟩]

/-- Modelled from the spec: the FixedPoint16 encoding `stored = round(v *
4096)` with saturating overflow; real values are modelled by rationals. -/
def encode (x : ℚ) : Int := saturate (round (x * (SCALE_FACTOR : ℚ)))

/-- Modelled from the spec: decoding a stored FixedPoint16 back to the real
value it represents. -/
def decode (s : Int) : ℚ := (s : ℚ) / (SCALE_FACTOR : ℚ)

/-- Input width of a layer: the length of its first weight row. -/
def layerInWidth (L : Layer) : Nat :=
  match L.weights with
  | [] => 0
  | r :: _ => r.length

/-- Output width of a layer: its number of weight rows. -/
def layerOutWidth (L : Layer) : Nat := L.weights.length

/-- Internal consistency of one layer: every weight row has the layer's input
width and there is one bias entry per weight row. -/
def layerUniform (L : Layer) : Bool :=
  (L.weights.all fun r => r.length == layerInWidth L) &&
    (L.weights.length == L.bias.length)

/-- Modelled from the spec: the `Network` invariant that layer `i`'s output
width equals layer `i+1`'s input width, with every layer internally
consistent. -/
def networkWellShaped : List Layer → Bool
  | [] => true
  | [L] => layerUniform L
  | L1 :: L2 :: rest =>
      layerUniform L1 && (layerOutWidth L1 == layerInWidth L2) &&
        networkWellShaped (L2 :: rest)

/-- C1: applying layer 1 (weights `Wg2`, bias `bg2`) to the zero input
vector `[0, 0]` yields, before any activation, exactly the bias vector
`bg2`, and every weighted sum over a row of `Wg2` at the zero input is
zero. -/
theorem layer1_zero_input_yields_bias :
    preActivation ⟨Wg2, bg2⟩ [0, 0] = bg2 ∧
      ∀ row ∈ Wg2, macLoop row [0, 0] 0 = 0 := by
  decide

/-- C6: the concrete constants form a well-shaped two-layer network: layer 1
is a 3×2 matrix with a length-3 bias, layer 2 is a 9×3 matrix with a
length-9 bias, and layer 1's output width (3) equals layer 2's input
width (3). -/
theorem genNetwork_well_shaped :
    networkWellShaped genNetwork = true ∧
      layerOutWidth ⟨Wg2, bg2⟩ = 3 ∧ layerInWidth ⟨Wg2, bg2⟩ = 2 ∧
      bg2.length = 3 ∧
      layerOutWidth ⟨Wg3, bg3⟩ = 9 ∧ layerInWidth ⟨Wg3, bg3⟩ = 3 ∧
      bg3.length = 9 ∧
      layerOutWidth ⟨Wg2, bg2⟩ = layerInWidth ⟨Wg3, bg3⟩ := by
  decide

/-- C10: every stored constant in `Wg2`, `bg2`, `Wg3` and `bg3` has raw
magnitude strictly below 4096, hence decodes to a real value strictly
inside (-1, 1): none of the Q4.12 integer bits is used by the shipped
data. -/
theorem constants_inside_unit_interval :
    (Wg2.all fun row => row.all fun v => v.natAbs < 4096) = true ∧
      (bg2.all fun v => v.natAbs < 4096) = true ∧
      (Wg3.all fun row => row.all fun v => v.natAbs < 4096) = true ∧
      (bg3.all fun v => v.natAbs < 4096) = true ∧
      ∀ v : Int, v.natAbs < 4096 → -1 < decode v ∧ decode v < 1 := by
  refine ⟨by decide, by decide, by decide, by decide, ?_⟩
  intro v hv
  have h1 : -4096 < v := by omega
  have h2 : v < 4096 := by omega
  have h1q : (-4096 : ℚ) < (v : ℚ) := by exact_mod_cast h1
  have h2q : (v : ℚ) < 4096 := by exact_mod_cast h2
  have hS : ((SCALE_FACTOR : Int) : ℚ) = 4096 := by norm_num [SCALE_FACTOR, FRAC_BITS]
  constructor
  · rw [decode, hS]
    rw [lt_div_iff₀ (by norm_num : (0:ℚ) < 4096)]
    linarith
  · rw [decode, hS]
    rw [div_lt_one (by norm_num : (0:ℚ) < 4096)]
    exact h2q

/-- C10 witness: the generic decode bound applied at a concrete raw value. -/
theorem constants_inside_unit_interval_witness :
    -1 < decode 100 ∧ decode 100 < 1 :=
  constants_inside_unit_interval.2.2.2.2 100 (by decide)

/-- The cast of `SCALE_FACTOR` to the rationals is `4096`. -/
lemma scale_cast : ((SCALE_FACTOR : Int) : ℚ) = 4096 := by
  norm_num [SCALE_FACTOR, FRAC_BITS]

/-- C2: the saturating overflow policy: encoding any real value `8.0` or
above yields the maximum representable FixedPoint16 (`0x7FFF` = 32767),
encoding `-8.0` or below yields the minimum (`0x8000` = -32768), and
`saturate` always lands in the signed 16-bit range without ever flipping
the sign of its argument. -/
theorem saturate_clamps_to_int16 :
    (∀ x : ℚ, 8 ≤ x → encode x = INT16_MAX) ∧
      (∀ x : ℚ, x ≤ -8 → encode x = INT16_MIN) ∧
      (∀ v : Int, INT16_MIN ≤ saturate v ∧ saturate v ≤ INT16_MAX) ∧
      (∀ v : Int, 0 ≤ v → 0 ≤ saturate v) ∧
      (∀ v : Int, v ≤ 0 → saturate v ≤ 0) := by
  refine ⟨?_, ?_, ?_, ?_, ?_⟩
  · intro x hx
    have hy : (32768 : ℚ) ≤ x * (SCALE_FACTOR : ℚ) := by
      rw [scale_cast]; linarith
    have hr : (32768 : Int) ≤ round (x * (SCALE_FACTOR : ℚ)) := by
      rw [round_eq]
      exact Int.le_floor.mpr (by push_cast; linarith)
    rw [encode, saturate, if_pos (by rw [INT16_MAX]; omega)]
  · intro x hx
    have hy : x * (SCALE_FACTOR : ℚ) ≤ -32768 := by
      rw [scale_cast]; linarith
    have hr : round (x * (SCALE_FACTOR : ℚ)) ≤ -32768 := by
      rw [round_eq]
      have hfl : (⌊x * (SCALE_FACTOR : ℚ) + 1 / 2⌋ : ℚ) ≤ x * (SCALE_FACTOR : ℚ) + 1 / 2 :=
        Int.floor_le _
      have hq : (⌊x * (SCALE_FACTOR : ℚ) + 1 / 2⌋ : ℚ) < -32767 := by linarith
      have hi : ⌊x * (SCALE_FACTOR : ℚ) + 1 / 2⌋ < -32767 := by exact_mod_cast hq
      omega
    rw [encode, saturate]
    rw [if_neg (by rw [INT16_MAX]; omega)]
    by_cases hlt : round (x * (SCALE_FACTOR : ℚ)) < INT16_MIN
    · rw [if_pos hlt]
    · rw [if_neg hlt, INT16_MIN] at *
      omega
  · intro v
    rw [saturate, INT16_MIN, INT16_MAX]
    split <;> rename_i h1
    · omega
    · split <;> omega
  · intro v hv
    rw [saturate, INT16_MIN, INT16_MAX]
    split <;> rename_i h1
    · omega
    · split <;> omega
  · intro v hv
    rw [saturate, INT16_MIN, INT16_MAX]
    split <;> rename_i h1
    · omega
    · split <;> omega

/-- C2 witness: the saturation boundaries at the concrete inputs `9.0`,
`-9.0` and the widened value `40000`. -/
theorem saturate_clamps_to_int16_witness :
    encode 9 = INT16_MAX ∧ encode (-9) = INT16_MIN ∧
      (INT16_MIN ≤ saturate 40000 ∧ saturate 40000 ≤ INT16_MAX) ∧
      0 ≤ saturate 40000 ∧ saturate (-40000) ≤ 0 :=
  ⟨saturate_clamps_to_int16.1 9 (by norm_num),
   saturate_clamps_to_int16.2.1 (-9) (by norm_num),
   saturate_clamps_to_int16.2.2.1 40000,
   saturate_clamps_to_int16.2.2.2.1 40000 (by norm_num),
   saturate_clamps_to_int16.2.2.2.2 (-40000) (by norm_num)⟩

/-- C5: for any real `x` in the representable range `[-8, 32767/4096]`,
decoding the Q4.12 encoding of `x` lands within `1/4096` of `x`. -/
theorem decode_encode_roundtrip (x : ℚ) (hlo : -8 ≤ x) (hhi : x ≤ 32767 / 4096) :
    |decode (encode x) - x| ≤ 1 / 4096 := by
  set y : ℚ := x * (SCALE_FACTOR : ℚ) with hy
  have hS : ((SCALE_FACTOR : Int) : ℚ) = 4096 := scale_cast
  have hylo : (-32768 : ℚ) ≤ y := by rw [hy, hS]; linarith
  have hyhi : y ≤ 32767 := by
    rw [hy, hS]
    have := mul_le_mul_of_nonneg_right hhi (by norm_num : (0:ℚ) ≤ 4096)
    calc x * 4096 ≤ 32767 / 4096 * 4096 := this
    _ = 32767 := by norm_num
  have hrlo : (-32768 : Int) ≤ round y := by
    rw [round_eq]
    exact Int.le_floor.mpr (by push_cast; linarith)
  have hrhi : round y ≤ 32767 := by
    rw [round_eq]
    have : ⌊y + 1 / 2⌋ < 32768 := Int.floor_lt.mpr (by push_cast; linarith)
    omega
  have hsat : encode x = round y := by
    rw [encode, ← hy, saturate, INT16_MAX, INT16_MIN]
    rw [if_neg (by omega), if_neg (by omega)]
  have habs : |(round y : ℚ) - y| ≤ 1 / 2 := by
    have := abs_sub_round y
    rw [abs_sub_comm] at this
    exact this
  rw [hsat, decode, hS]
  have : (round y : ℚ) / 4096 - x = ((round y : ℚ) - y) / 4096 := by
    rw [hy, hS]; ring
  rw [this, abs_div, abs_of_pos (by norm_num : (0:ℚ) < 4096)]
  rw [div_le_div_iff₀ (by norm_num) (by norm_num)]
  linarith [habs]

/-- C5 witness: the round-trip bound at the concrete rational `x = 1/3`. -/
theorem decode_encode_roundtrip_witness :
    |decode (encode (1 / 3)) - 1 / 3| ≤ 1 / 4096 :=
  decode_encode_roundtrip (1 / 3) (by norm_num) (by norm_num)

/-- C8: `evaluate` is deterministic: any two results of evaluating the same
network on the same input with the same activation are equal (the
computation is pure and side-effect free). -/
theorem evaluate_deterministic (act : Int → Int) (x : List Int)
    (r1 r2 : Except EvalError (List Int))
    (h1 : evaluate genNetwork act x = r1) (h2 : evaluate genNetwork act x = r2) :
    r1 = r2 := h1 ▸ h2 ▸ rfl

/-- C8 witness: two evaluations of the network at `[0, 0]` agree on the
golden output value. -/
theorem evaluate_deterministic_witness :
    (Except.ok [-601, 2653, 793, 3177, -409, 3309, -91, 3263, 287] :
        Except EvalError (List Int)) =
      Except.ok [-601, 2653, 793, 3177, -409, 3309, -91, 3263, 287] :=
  evaluate_deterministic id [0, 0] _ _ (by decide) (by decide)

/-- The accumulation loop equals its starting value plus the sum of the
pairwise products. -/
lemma macLoop_eq_sum : ∀ (w x : List Int) (a : Int),
    macLoop w x a = a + (List.zipWith (· * ·) w x).sum
  | [], x, a => by cases x <;> simp [macLoop]
  | _ :: _, [], a => by simp [macLoop]
  | w :: ws, y :: ys, a => by
    rw [macLoop, macLoop_eq_sum ws ys (a + w * y)]
    simp [List.zipWith]
    ring

/-- Pairwise products of two int16-range vectors stay within the 32-bit
widened domain. -/
lemma zipWith_mul_int32 : ∀ (w x : List Int),
    (∀ v ∈ w, v.natAbs ≤ 32768) → (∀ v ∈ x, v.natAbs ≤ 32768) →
    ∀ p ∈ List.zipWith (· * ·) w x, p.natAbs ≤ 2 ^ 30
  | [], _, _, _ => by simp
  | _ :: _, [], _, _ => by simp
  | w :: ws, y :: ys, hw, hx => by
    intro p hp
    rw [List.zipWith] at hp
    rcases List.mem_cons.mp hp with h | h
    · subst h
      rw [Int.natAbs_mul]
      calc w.natAbs * y.natAbs
          ≤ 32768 * 32768 :=
            Nat.mul_le_mul (hw w (by simp)) (hx y (by simp))
        _ = 2 ^ 30 := by norm_num
    · exact zipWith_mul_int32 ws ys
        (fun v hv => hw v (by simp [hv])) (fun v hv => hx v (by simp [hv]))
        p h

/-- C4: `multiplyAccumulate` computes the bias (widened to the product scale)
plus the sum of the pairwise products, accumulated in the widened domain and
right-shifted by `FRAC_BITS` exactly once at the end; and for int16-range
weights and inputs every individual product fits in the 32-bit widened
domain. -/
theorem multiplyAccumulate_closed_form (w x : List Int) (b : Int)
    (_hlen : w.length = x.length)
    (hw : ∀ v ∈ w, v.natAbs ≤ 32768) (hx : ∀ v ∈ x, v.natAbs ≤ 32768) :
    multiplyAccumulate w x b =
        saturate (asr (b * SCALE_FACTOR + (List.zipWith (· * ·) w x).sum)
          FRAC_BITS) ∧
      ∀ p ∈ List.zipWith (· * ·) w x, p.natAbs ≤ 2 ^ 30 :=
  ⟨by rw [multiplyAccumulate, macLoop_eq_sum], zipWith_mul_int32 w x hw hx⟩

/-- C4 witness: the closed form and the product bound at a concrete weight
row, input and bias. -/
theorem multiplyAccumulate_closed_form_witness :
    multiplyAccumulate [100, -200] [300, 400] 5 =
        saturate (asr (5 * SCALE_FACTOR +
          (List.zipWith (· * ·) [100, -200] [300, 400]).sum) FRAC_BITS) ∧
      ∀ p ∈ List.zipWith (· * ·) ([100, -200] : List Int) [300, 400],
        p.natAbs ≤ 2 ^ 30 :=
  multiplyAccumulate_closed_form [100, -200] [300, 400] 5 (by decide)
    (by decide) (by decide)

/-- The first layer's shape check fails on any input whose length is not 2. -/
lemma shapeOk_layer1_false (x : List Int) (h : x.length ≠ 2) :
    shapeOk ⟨Wg2, bg2⟩ x = false := by
  rw [shapeOk]
  simp only [Wg2, bg2, List.all_cons, List.all_nil, List.length_cons,
    List.length_nil, Bool.and_eq_false_iff]
  right
  left
  simp only [beq_eq_false_iff_ne, ne_eq]
  omega

/-- C3: evaluating the network on any input vector whose length differs from
the first layer's input width (2) fails with `ShapeMismatch`, for every
activation function: the input is never silently padded or truncated. -/
theorem evaluate_shape_mismatch (act : Int → Int) (x : List Int)
    (h : x.length ≠ 2) :
    evaluate genNetwork act x = .error .ShapeMismatch := by
  rw [genNetwork, evaluate, applyLayer, shapeOk_layer1_false x h]
  rfl

/-- C3 witness: a length-1 input is rejected with `ShapeMismatch`. -/
theorem evaluate_shape_mismatch_witness :
    evaluate genNetwork id [7] = .error .ShapeMismatch :=
  evaluate_shape_mismatch id [7] (by decide)

/-- C7: for every input vector of the first layer's input width (2) and every
activation function, `evaluate` on the given two-layer network succeeds and
returns a vector whose length is the last layer's output width, 9. -/
theorem evaluate_output_length (act : Int → Int) (x : List Int)
    (h : x.length = 2) :
    ∃ y, evaluate genNetwork act x = .ok y ∧ y.length = 9 := by
  obtain ⟨x0, x1, rfl⟩ := List.length_eq_two.mp h
  exact ⟨_, rfl, rfl⟩

/-- C7 witness: the network maps the concrete input `[0, 0]` to a length-9
output vector. -/
theorem evaluate_output_length_witness :
    ∃ y, evaluate genNetwork id [0, 0] = .ok y ∧ y.length = 9 :=
  evaluate_output_length id [0, 0] rfl

/-- The widened MAC value before saturation (what `saturate` receives inside
`multiplyAccumulate`). -/
def macRaw (w x : List Int) (b : Int) : Int :=
  asr (macLoop w x (b * SCALE_FACTOR)) FRAC_BITS

/-- Pre-activation outputs of a layer without the final saturation. -/
def preActivationU (L : Layer) (x : List Int) : List Int :=
  List.zipWith (fun row b => macRaw row x b) L.weights L.bias

/-- Identity-activation evaluation without saturation (analysis aid: it
coincides with `evaluate` whenever no intermediate value saturates). -/
def evaluateU : List Layer → List Int → List Int
  | [], x => x
  | L :: rest, x => evaluateU rest (preActivationU L x)

/-- Representability of a widened value in the signed 16-bit range. -/
def inInt16 (v : Int) : Bool :=
  decide (INT16_MIN ≤ v) && decide (v ≤ INT16_MAX)

/-- All shapes match along the run and no widened MAC value leaves the
signed 16-bit range, so no saturation event occurs. -/
def noSat : List Layer → List Int → Bool
  | [], _ => true
  | L :: rest, x =>
      shapeOk L x && (preActivationU L x).all inInt16 &&
        noSat rest (preActivationU L x)

/-- `saturate` is the identity on representable values. -/
lemma saturate_of_inInt16 (v : Int) (h : inInt16 v = true) : saturate v = v := by
  rw [inInt16] at h
  simp only [Bool.and_eq_true, decide_eq_true_eq] at h
  rw [INT16_MIN, INT16_MAX] at h
  rw [saturate, INT16_MIN, INT16_MAX]
  rw [if_neg (by omega), if_neg (by omega)]

/-- Mapping `saturate` over a list of representable values changes nothing. -/
lemma map_saturate_of_all (l : List Int) (h : l.all inInt16 = true) :
    l.map saturate = l := by
  induction l with
  | nil => rfl
  | cons a t ih =>
    simp only [List.all_cons, Bool.and_eq_true] at h
    rw [List.map_cons, saturate_of_inInt16 a h.1, ih h.2]

/-- When no saturation occurs, the saturated pre-activation equals the
unsaturated one. -/
lemma preActivation_eq_of_noSat (L : Layer) (x : List Int)
    (h : (preActivationU L x).all inInt16 = true) :
    preActivation L x = preActivationU L x := by
  have hmap : preActivation L x = (preActivationU L x).map saturate := by
    rw [preActivation, preActivationU, List.map_zipWith]
    rfl
  rw [hmap, map_saturate_of_all _ h]

/-- When shapes match and nothing saturates, identity-activation `evaluate`
succeeds and computes the unsaturated evaluation. -/
lemma evaluate_eq_evaluateU : ∀ (net : List Layer) (x : List Int),
    noSat net x = true → evaluate net id x = .ok (evaluateU net x)
  | [], _, _ => rfl
  | L :: rest, x, h => by
    rw [noSat] at h
    simp only [Bool.and_eq_true] at h
    obtain ⟨⟨hso, hall⟩, hrest⟩ := h
    rw [evaluate, applyLayer, if_pos hso, List.map_id,
      preActivation_eq_of_noSat L x hall, evaluateU]
    exact evaluate_eq_evaluateU rest _ hrest

/-- The shift by `FRAC_BITS` is the rational floor of division by 4096. -/
lemma asr12_eq_floor (z : Int) : asr z FRAC_BITS = ⌊(z : ℚ) / (4096 : ℚ)⌋ := by
  have h := Rat.floor_intCast_div_natCast z 4096
  rw [asr, FRAC_BITS]
  norm_num at h ⊢
  exact h.symm

/-- One unsaturated layer-1 unit: bias `b`, dot product `d` of the weight row
with the base input, input scaled by `t`. -/
def macP (b d t : Int) : Int := asr (b * SCALE_FACTOR + t * d) FRAC_BITS

/-- One unsaturated layer-2 unit on top of three layer-1 units. -/
def macQ (c v1 v2 v3 b1 b2 b3 d1 d2 d3 t : Int) : Int :=
  asr (c * SCALE_FACTOR +
    (v1 * macP b1 d1 t + v2 * macP b2 d2 t + v3 * macP b3 d3 t)) FRAC_BITS

/-- A layer-1 unit is the floor of the exact affine value. -/
lemma macP_eq_floor (b d t : Int) :
    macP b d t = ⌊(b : ℚ) + (t : ℚ) * (d : ℚ) / 4096⌋ := by
  rw [macP, asr12_eq_floor]
  congr 1
  push_cast
  rw [scale_cast]
  ring

/-- A layer-2 unit is the floor of its exact value on the layer-1 outputs. -/
lemma macQ_eq_floor (c v1 v2 v3 b1 b2 b3 d1 d2 d3 t : Int) :
    macQ c v1 v2 v3 b1 b2 b3 d1 d2 d3 t =
      ⌊(c : ℚ) + ((v1 : ℚ) * (macP b1 d1 t : ℚ) + (v2 : ℚ) * (macP b2 d2 t : ℚ) +
        (v3 : ℚ) * (macP b3 d3 t : ℚ)) / 4096⌋ := by
  rw [macQ, asr12_eq_floor]
  congr 1
  push_cast
  rw [scale_cast]
  ring

/-- The raw MAC of a 2-wide row against a scaled input is a `macP`. -/
lemma macRaw_pair (w0 w1 b t x0 x1 : Int) :
    macRaw [w0, w1] [t * x0, t * x1] b = macP b (w0 * x0 + w1 * x1) t := by
  have hm : macLoop [w0, w1] [t * x0, t * x1] (b * SCALE_FACTOR) =
      b * SCALE_FACTOR + t * (w0 * x0 + w1 * x1) := by
    simp [macLoop]
    ring
  rw [macRaw, hm, macP]

/-- The raw MAC of a 3-wide row against three layer-1 units is a `macQ`. -/
lemma macRaw_triple (v1 v2 v3 c b1 b2 b3 d1 d2 d3 t : Int) :
    macRaw [v1, v2, v3] [macP b1 d1 t, macP b2 d2 t, macP b3 d3 t] c =
      macQ c v1 v2 v3 b1 b2 b3 d1 d2 d3 t := by
  have hm : macLoop [v1, v2, v3] [macP b1 d1 t, macP b2 d2 t, macP b3 d3 t]
      (c * SCALE_FACTOR) =
      c * SCALE_FACTOR +
        (v1 * macP b1 d1 t + v2 * macP b2 d2 t + v3 * macP b3 d3 t) := by
    simp [macLoop]
    ring
  rw [macRaw, hm, macQ]

/-- Each layer-2 unit value is within 4 quantization units of an exact
affine function of the input scale `t`, as long as the layer-2 weights have
raw magnitude at most 4095 (true of every `Wg3` entry). -/
lemma macQ_affine_approx (c v1 v2 v3 b1 b2 b3 d1 d2 d3 t : Int)
    (hv1 : |v1| ≤ 4095) (hv2 : |v2| ≤ 4095) (hv3 : |v3| ≤ 4095) :
    |(macQ c v1 v2 v3 b1 b2 b3 d1 d2 d3 t : ℚ) -
        ((c : ℚ) +
          ((v1 : ℚ) * (b1 : ℚ) + (v2 : ℚ) * (b2 : ℚ) + (v3 : ℚ) * (b3 : ℚ)) / 4096 +
          (t : ℚ) * (((v1 : ℚ) * (d1 : ℚ) + (v2 : ℚ) * (d2 : ℚ) +
            (v3 : ℚ) * (d3 : ℚ)) / (4096 * 4096)))| ≤ 4 := by
  obtain ⟨f1, hf1, hf1n, hf1l⟩ : ∃ f : ℚ, ((macP b1 d1 t : Int) : ℚ) =
      ((b1 : ℚ) + (t : ℚ) * (d1 : ℚ) / 4096) - f ∧ 0 ≤ f ∧ f < 1 :=
    ⟨Int.fract ((b1 : ℚ) + (t : ℚ) * (d1 : ℚ) / 4096),
     by rw [macP_eq_floor]
        linarith [Int.floor_add_fract ((b1 : ℚ) + (t : ℚ) * (d1 : ℚ) / 4096)],
     Int.fract_nonneg _, Int.fract_lt_one _⟩
  obtain ⟨f2, hf2, hf2n, hf2l⟩ : ∃ f : ℚ, ((macP b2 d2 t : Int) : ℚ) =
      ((b2 : ℚ) + (t : ℚ) * (d2 : ℚ) / 4096) - f ∧ 0 ≤ f ∧ f < 1 :=
    ⟨Int.fract ((b2 : ℚ) + (t : ℚ) * (d2 : ℚ) / 4096),
     by rw [macP_eq_floor]
        linarith [Int.floor_add_fract ((b2 : ℚ) + (t : ℚ) * (d2 : ℚ) / 4096)],
     Int.fract_nonneg _, Int.fract_lt_one _⟩
  obtain ⟨f3, hf3, hf3n, hf3l⟩ : ∃ f : ℚ, ((macP b3 d3 t : Int) : ℚ) =
      ((b3 : ℚ) + (t : ℚ) * (d3 : ℚ) / 4096) - f ∧ 0 ≤ f ∧ f < 1 :=
    ⟨Int.fract ((b3 : ℚ) + (t : ℚ) * (d3 : ℚ) / 4096),
     by rw [macP_eq_floor]
        linarith [Int.floor_add_fract ((b3 : ℚ) + (t : ℚ) * (d3 : ℚ) / 4096)],
     Int.fract_nonneg _, Int.fract_lt_one _⟩
  obtain ⟨g, hg, hgn, hgl⟩ : ∃ g : ℚ, (macQ c v1 v2 v3 b1 b2 b3 d1 d2 d3 t : ℚ) =
      ((c : ℚ) + ((v1 : ℚ) * ((macP b1 d1 t : Int) : ℚ) +
        (v2 : ℚ) * ((macP b2 d2 t : Int) : ℚ) +
        (v3 : ℚ) * ((macP b3 d3 t : Int) : ℚ)) / 4096) - g ∧ 0 ≤ g ∧ g < 1 :=
    ⟨Int.fract ((c : ℚ) + ((v1 : ℚ) * ((macP b1 d1 t : Int) : ℚ) +
        (v2 : ℚ) * ((macP b2 d2 t : Int) : ℚ) +
        (v3 : ℚ) * ((macP b3 d3 t : Int) : ℚ)) / 4096),
     by rw [macQ_eq_floor]
        linarith [Int.floor_add_fract ((c : ℚ) +
          ((v1 : ℚ) * ((macP b1 d1 t : Int) : ℚ) +
           (v2 : ℚ) * ((macP b2 d2 t : Int) : ℚ) +
           (v3 : ℚ) * ((macP b3 d3 t : Int) : ℚ)) / 4096)],
     Int.fract_nonneg _, Int.fract_lt_one _⟩
  rw [hf1, hf2, hf3] at hg
  have hb1 : |(v1 : ℚ)| ≤ 4095 := by
    exact_mod_cast hv1
  have hb2 : |(v2 : ℚ)| ≤ 4095 := by
    exact_mod_cast hv2
  have hb3 : |(v3 : ℚ)| ≤ 4095 := by
    exact_mod_cast hv3
  have hp1 : |(v1 : ℚ) * f1| ≤ 4095 := by
    rw [abs_mul, abs_of_nonneg hf1n]
    calc |(v1 : ℚ)| * f1 ≤ 4095 * 1 :=
          mul_le_mul hb1 (le_of_lt hf1l) hf1n (by norm_num)
      _ = 4095 := by norm_num
  have hp2 : |(v2 : ℚ) * f2| ≤ 4095 := by
    rw [abs_mul, abs_of_nonneg hf2n]
    calc |(v2 : ℚ)| * f2 ≤ 4095 * 1 :=
          mul_le_mul hb2 (le_of_lt hf2l) hf2n (by norm_num)
      _ = 4095 := by norm_num
  have hp3 : |(v3 : ℚ) * f3| ≤ 4095 := by
    rw [abs_mul, abs_of_nonneg hf3n]
    calc |(v3 : ℚ)| * f3 ≤ 4095 * 1 :=
          mul_le_mul hb3 (le_of_lt hf3l) hf3n (by norm_num)
      _ = 4095 := by norm_num
  obtain ⟨hp1a, hp1b⟩ := abs_le.mp hp1
  obtain ⟨hp2a, hp2b⟩ := abs_le.mp hp2
  obtain ⟨hp3a, hp3b⟩ := abs_le.mp hp3
  rw [hg, abs_le]
  constructor
  · ring_nf
    ring_nf at hp1a hp2a hp3a hp1b hp2b hp3b
    linarith
  · ring_nf
    ring_nf at hp1a hp2a hp3a hp1b hp2b hp3b
    linarith

/-- Scaling bound for one layer-2 unit: relative to the zero-scale response,
scaling the input by `a` scales the unit's response within `8 * (|a| + 1)`
quantization units. -/
lemma macQ_linear_bound (a c v1 v2 v3 b1 b2 b3 d1 d2 d3 : Int)
    (hv1 : |v1| ≤ 4095) (hv2 : |v2| ≤ 4095) (hv3 : |v3| ≤ 4095) :
    |macQ c v1 v2 v3 b1 b2 b3 d1 d2 d3 a - macQ c v1 v2 v3 b1 b2 b3 d1 d2 d3 0 -
        a * (macQ c v1 v2 v3 b1 b2 b3 d1 d2 d3 1 -
          macQ c v1 v2 v3 b1 b2 b3 d1 d2 d3 0)| ≤ 8 * (|a| + 1) := by
  have ha := macQ_affine_approx c v1 v2 v3 b1 b2 b3 d1 d2 d3 a hv1 hv2 hv3
  have h1 := macQ_affine_approx c v1 v2 v3 b1 b2 b3 d1 d2 d3 1 hv1 hv2 hv3
  have h0 := macQ_affine_approx c v1 v2 v3 b1 b2 b3 d1 d2 d3 0 hv1 hv2 hv3
  have haq : (0 : ℚ) ≤ |(a : ℚ)| := abs_nonneg _
  obtain ⟨haa, hab⟩ := abs_le.mp ha
  obtain ⟨h1a, h1b⟩ := abs_le.mp h1
  obtain ⟨h0a, h0b⟩ := abs_le.mp h0
  have goalq : |(macQ c v1 v2 v3 b1 b2 b3 d1 d2 d3 a : ℚ) -
      (macQ c v1 v2 v3 b1 b2 b3 d1 d2 d3 0 : ℚ) -
      (a : ℚ) * ((macQ c v1 v2 v3 b1 b2 b3 d1 d2 d3 1 : ℚ) -
        (macQ c v1 v2 v3 b1 b2 b3 d1 d2 d3 0 : ℚ))| ≤ 8 * (|(a : ℚ)| + 1) := by
    obtain ⟨han, hap⟩ := abs_le.mp (le_refl |(a : ℚ)|)
    rw [abs_le]
    constructor
    · nlinarith [mul_le_mul_of_nonneg_left h1b haq, mul_le_mul_of_nonneg_left h0b haq,
        mul_le_mul_of_nonneg_left h1a haq, mul_le_mul_of_nonneg_left h0a haq,
        neg_abs_le (a : ℚ), le_abs_self (a : ℚ)]
    · nlinarith [mul_le_mul_of_nonneg_left h1b haq, mul_le_mul_of_nonneg_left h0b haq,
        mul_le_mul_of_nonneg_left h1a haq, mul_le_mul_of_nonneg_left h0a haq,
        neg_abs_le (a : ℚ), le_abs_self (a : ℚ)]
  exact_mod_cast goalq

/-- Layer 1 of the generator at a scaled input, in `macP` form. -/
lemma preActivationU_layer1_scaled (t x0 x1 : Int) :
    preActivationU ⟨Wg2, bg2⟩ [t * x0, t * x1] =
      [macP 1807 (117 * x0 + 267 * x1) t,
       macP 808 (691 * x0 + 113 * x1) t,
       macP (-451) ((-893) * x0 + (-522) * x1) t] := by
  rw [preActivationU]
  simp only [Wg2, bg2, List.zipWith]
  norm_num [i16]
  rw [macRaw_pair, macRaw_pair, macRaw_pair]
  simp [neg_mul]

/-- The full unsaturated evaluation of the generator at a scaled input, in
`macQ` form. -/
lemma evaluateU_genNetwork_scaled (t x0 x1 : Int) :
    evaluateU genNetwork [t * x0, t * x1] =
      [macQ (-479) (-186) (-88) 205 1807 808 (-451)
         (117 * x0 + 267 * x1) (691 * x0 + 113 * x1) ((-893) * x0 + (-522) * x1) t,
       macQ 2334 704 200 281 1807 808 (-451)
         (117 * x0 + 267 * x1) (691 * x0 + 113 * x1) ((-893) * x0 + (-522) * x1) t,
       macQ 86 1418 588 309 1807 808 (-451)
         (117 * x0 + 267 * x1) (691 * x0 + 113 * x1) ((-893) * x0 + (-522) * x1) t,
       macQ 2287 1615 778 (-226) 1807 808 (-451)
         (117 * x0 + 267 * x1) (691 * x0 + 113 * x1) ((-893) * x0 + (-522) * x1) t,
       macQ (-250) (-581) 568 129 1807 808 (-451)
         (117 * x0 + 267 * x1) (691 * x0 + 113 * x1) ((-893) * x0 + (-522) * x1) t,
       macQ 2406 1728 478 (-424) 1807 808 (-451)
         (117 * x0 + 267 * x1) (691 * x0 + 113 * x1) ((-893) * x0 + (-522) * x1) t,
       macQ (-93) 314 (-487) 360 1807 808 (-451)
         (117 * x0 + 267 * x1) (691 * x0 + 113 * x1) ((-893) * x0 + (-522) * x1) t,
       macQ 2854 542 532 (-592) 1807 808 (-451)
         (117 * x0 + 267 * x1) (691 * x0 + 113 * x1) ((-893) * x0 + (-522) * x1) t,
       macQ (-12) 275 660 (-435) 1807 808 (-451)
         (117 * x0 + 267 * x1) (691 * x0 + 113 * x1) ((-893) * x0 + (-522) * x1) t] := by
  simp only [genNetwork, evaluateU]
  rw [preActivationU_layer1_scaled]
  rw [preActivationU]
  simp only [Wg3, bg3, List.zipWith]
  norm_num [i16]
  rw [macRaw_triple, macRaw_triple, macRaw_triple, macRaw_triple, macRaw_triple,
    macRaw_triple, macRaw_triple, macRaw_triple, macRaw_triple]
  simp [neg_mul]

/-- C9 (amended): with the identity activation, `evaluate` implements an
affine map, so linearity holds after subtracting the zero-input response:
whenever no intermediate value saturates, each output coordinate of
`evaluate (a*x)` differs from the zero-input response by `a` times the
difference `evaluate x` minus the zero-input response, up to `8 * (|a| + 1)`
quantization units. -/
theorem evaluate_affine_scaling (a x0 x1 : Int)
    (hax : noSat genNetwork [a * x0, a * x1] = true)
    (hx : noSat genNetwork [x0, x1] = true) :
    ∃ ya yx y0,
      evaluate genNetwork id [a * x0, a * x1] = .ok ya ∧
        evaluate genNetwork id [x0, x1] = .ok yx ∧
        evaluate genNetwork id [0, 0] = .ok y0 ∧
        ∀ j : Nat,
          |ya.getD j 0 - y0.getD j 0 - a * (yx.getD j 0 - y0.getD j 0)| ≤
            8 * (|a| + 1) := by
  have h0 : noSat genNetwork [0, 0] = true := by decide
  have ea := evaluate_eq_evaluateU genNetwork [a * x0, a * x1] hax
  have ex := evaluate_eq_evaluateU genNetwork [x0, x1] hx
  have e0 := evaluate_eq_evaluateU genNetwork [0, 0] h0
  have ua := evaluateU_genNetwork_scaled a x0 x1
  have ux := evaluateU_genNetwork_scaled 1 x0 x1
  have u0 := evaluateU_genNetwork_scaled 0 x0 x1
  rw [one_mul, one_mul] at ux
  rw [zero_mul, zero_mul] at u0
  rw [ua] at ea
  rw [ux] at ex
  rw [u0] at e0
  refine ⟨_, _, _, ea, ex, e0, ?_⟩
  intro j
  have hpos : (0 : Int) ≤ 8 * (|a| + 1) := by positivity
  rcases j with _ | _ | _ | _ | _ | _ | _ | _ | _ | j
  · simp only [List.getD_cons_zero, List.getD_cons_succ]
    exact macQ_linear_bound _ _ _ _ _ _ _ _ _ _ _ (by decide) (by decide) (by decide)
  · simp only [List.getD_cons_zero, List.getD_cons_succ]
    exact macQ_linear_bound _ _ _ _ _ _ _ _ _ _ _ (by decide) (by decide) (by decide)
  · simp only [List.getD_cons_zero, List.getD_cons_succ]
    exact macQ_linear_bound _ _ _ _ _ _ _ _ _ _ _ (by decide) (by decide) (by decide)
  · simp only [List.getD_cons_zero, List.getD_cons_succ]
    exact macQ_linear_bound _ _ _ _ _ _ _ _ _ _ _ (by decide) (by decide) (by decide)
  · simp only [List.getD_cons_zero, List.getD_cons_succ]
    exact macQ_linear_bound _ _ _ _ _ _ _ _ _ _ _ (by decide) (by decide) (by decide)
  · simp only [List.getD_cons_zero, List.getD_cons_succ]
    exact macQ_linear_bound _ _ _ _ _ _ _ _ _ _ _ (by decide) (by decide) (by decide)
  · simp only [List.getD_cons_zero, List.getD_cons_succ]
    exact macQ_linear_bound _ _ _ _ _ _ _ _ _ _ _ (by decide) (by decide) (by decide)
  · simp only [List.getD_cons_zero, List.getD_cons_succ]
    exact macQ_linear_bound _ _ _ _ _ _ _ _ _ _ _ (by decide) (by decide) (by decide)
  · simp only [List.getD_cons_zero, List.getD_cons_succ]
    exact macQ_linear_bound _ _ _ _ _ _ _ _ _ _ _ (by decide) (by decide) (by decide)
  · rw [List.getD_eq_default _ _ (by simp), List.getD_eq_default _ _ (by simp),
      List.getD_eq_default _ _ (by simp)]
    simpa using hpos

/-- C9 counterexample: the claim as stated fails on the shipped constants:
with scalar `a = 0` and input `x = [4096, 4096]` (1.0, 1.0 in Q4.12),
`evaluate (a*x) = evaluate [0,0]` has first coordinate -601, while
`a * evaluate x` has first coordinate 0; a gap of 601 quantization units is
far beyond quantization error (not even within 64 units), because the bias
vectors make the network affine, not linear. -/
theorem evaluate_not_linear_counterexample :
    evaluate genNetwork id [0 * 4096, 0 * 4096] =
        .ok [-601, 2653, 793, 3177, -409, 3309, -91, 3263, 287] ∧
      evaluate genNetwork id [4096, 4096] =
        .ok [-707, 2661, 935, 3560, -397, 3711, -281, 3622, 593] ∧
      ¬|(-601 : Int) - 0 * (-707)| ≤ 64 :=
  ⟨by decide, by decide, by decide⟩

/-- C9 witness: the affine-scaling bound at the concrete scalar `a = 2` and
input `[100, -50]`, where no intermediate saturates. -/
theorem evaluate_affine_scaling_witness :
    ∃ ya yx y0,
      evaluate genNetwork id [2 * 100, 2 * (-50)] = .ok ya ∧
        evaluate genNetwork id [100, -50] = .ok yx ∧
        evaluate genNetwork id [0, 0] = .ok y0 ∧
        ∀ j : Nat,
          |ya.getD j 0 - y0.getD j 0 - 2 * (yx.getD j 0 - y0.getD j 0)| ≤
            8 * (|(2 : Int)| + 1) :=
  evaluate_affine_scaling 2 100 (-50) (by decide) (by decide)
